import Mathlib

/-!
Shallow embedding of the `crossdev::fs` filesystem library
(`src/core/filesystem_unix.cpp`, `src/core/filesystem_win.cpp`,
interface in `src/core/filesystem.hpp`).

`std::string` values are modelled as `List Char`.  A `Path` value is
represented by its normalized internal string `m_path`.  The host
filesystem is modelled as a finite association list from component paths
(keys) to nodes; host calls (`stat`, `opendir`/`readdir`, `mkdir`,
`rmdir`, `unlink`, `rename`, `GetFileAttributesA`, `FindFirstFileA`,
`MoveFileA`, ...) become pure functions over that state.  C++ exceptions
(`FileSystemException`) are modelled with `Except`, the error value
carrying the filesystem state at the throw point.
-/

deriving instance DecidableEq for Except

namespace Crossdev

/-- Character replacement performed by the POSIX `Path` constructor:
`std::replace(m_path.begin(), m_path.end(), '\\', '/')`. -/
def unixSepChar (c : Char) : Char := if c = '\\' then '/' else c

/-- POSIX `Path::Path` (filesystem_unix.cpp:19-27): replace every backslash
by a forward slash, then drop a single trailing slash when the string is
longer than one character (`m_path.size() > 1 && m_path.back() == '/'`). -/
def Unix.pathMk (s : List Char) : List Char :=
  if (s.map unixSepChar).length > 1 ∧ (s.map unixSepChar).getLast? = some '/'
  then (s.map unixSepChar).dropLast
  else s.map unixSepChar

/-- Character replacement performed by the Windows `Path` constructor:
`std::replace(m_path.begin(), m_path.end(), '/', '\\')`. -/
def winSepChar (c : Char) : Char := if c = '/' then '\\' else c

/-- Windows `Path::Path` (filesystem_win.cpp:16-19): replace every forward
slash by a backslash; no trailing separator is removed. -/
def Win.pathMk (s : List Char) : List Char := s.map winSepChar

/-- Model of `std::string::find_last_of` restricted to a character
predicate: index of the last character satisfying `pred`, if any. -/
def findLastOf (pred : Char → Bool) : List Char → Option Nat
  | [] => none
  | c :: cs =>
    match findLastOf pred cs with
    | some i => some (i + 1)
    | none => if pred c then some 0 else none

/-- POSIX `Path::parent` (filesystem_unix.cpp:58-67): no slash gives `"."`,
a slash only at position 0 gives `"/"`, otherwise the prefix before the
last slash (run through the `Path` constructor). -/
def Unix.parent (p : List Char) : List Char :=
  match findLastOf (fun c => decide (c = '/')) p with
  | none => Unix.pathMk ['.']
  | some pos => if pos = 0 then Unix.pathMk ['/'] else Unix.pathMk (p.take pos)

/-- Windows `Path::parent` (filesystem_win.cpp:44-50): `find_last_of("\\/")`
searches both separator characters; no separator gives `""`, and there is
no special case for a separator at position 0. -/
def Win.parent (p : List Char) : List Char :=
  match findLastOf (fun c => decide (c = '\\') || decide (c = '/')) p with
  | none => Win.pathMk []
  | some pos => Win.pathMk (p.take pos)

/-- `s` ends in two consecutive copies of `sep`. -/
def endsTwo (sep : Char) (s : List Char) : Bool :=
  decide (s.getLast? = some sep) && decide (s.dropLast.getLast? = some sep)

/-! ### The host filesystem model

The host state is an association list from component paths (keys) to
nodes.  The order of the entries models the host's (unspecified)
directory-enumeration order.  The root directory always exists and is not
itself an entry of the list.  Host calls resolve the path strings the
library hands them by splitting on the separator character (consecutive
separators and a leading separator produce empty components, which the
host ignores). -/

/-- A filesystem node: a regular file with its byte content, a directory,
or another kind of node (device, socket, ...; `S_ISREG` and `S_ISDIR` are
both false for it). -/
inductive Node where
  | file (content : List Nat)
  | dir
  | other
deriving DecidableEq

/-- A key: the component path of a node, relative to the root. -/
abbrev Key := List (List Char)

/-- The modelled host filesystem state. -/
abbrev FS := List (Key × Node)

/-- Errors thrown as `FileSystemException`, named after the message
strings in the source; `outOfFuel` is a model artifact for recursion depth
exhaustion and is never produced on inputs whose tree depth is below the
supplied fuel. -/
inductive Err where
  | couldNotDeleteFile
  | couldNotRemoveDirectory
  | couldNotCreateDirectory
  | couldNotOpenSourceForCopy
  | couldNotOpenDestForCopy
  | couldNotMoveFile
  | couldNotCopyFile
  | outOfFuel
deriving DecidableEq

/-- Split on a separator character (model of how the host parses the path
strings it receives). -/
def splitSep (sep : Char) : List Char → List (List Char)
  | [] => [[]]
  | c :: cs =>
    if c = sep then [] :: splitSep sep cs
    else
      match splitSep sep cs with
      | [] => [[c]]
      | h :: t => (c :: h) :: t

/-- Non-empty components of a path string. -/
def comps (sep : Char) (p : List Char) : Key :=
  (splitSep sep p).filter (fun c => c ≠ [])

/-- First entry of the association list with the given key. -/
def lookupKey : FS → Key → Option Node
  | [], _ => none
  | e :: rest, k => if e.1 = k then some e.2 else lookupKey rest k

/-- Remove every entry with the given key. -/
def eraseKey (fs : FS) (k : Key) : FS := fs.filter (fun e => e.1 ≠ k)

/-- Host metadata lookup (`stat` / `GetFileAttributesA`): the empty string
is invalid, the root always resolves to a directory, and any other path
resolves through the association list. -/
def statPath (sep : Char) (fs : FS) (p : List Char) : Option Node :=
  if p = [] then none
  else if comps sep p = [] then some Node.dir
  else lookupKey fs (comps sep p)

/-- `Path::exists` (filesystem_unix.cpp:37-40, filesystem_win.cpp:29-32):
true iff the host metadata lookup succeeds. -/
def pathExists (sep : Char) (fs : FS) (p : List Char) : Bool :=
  (statPath sep fs p).isSome

/-- `Path::isDirectory` (filesystem_unix.cpp:42-48,
filesystem_win.cpp:34-37): lookup failure maps to `false`. -/
def isDirectory (sep : Char) (fs : FS) (p : List Char) : Bool :=
  decide (statPath sep fs p = some Node.dir)

/-- `Path::isFile` (filesystem_unix.cpp:50-56): `S_ISREG`; lookup failure
maps to `false`. -/
def isFile (sep : Char) (fs : FS) (p : List Char) : Bool :=
  match statPath sep fs p with
  | some (Node.file _) => true
  | _ => false

/-- `File::exists` (filesystem_unix.cpp:123-125, filesystem_win.cpp:101-103):
`m_path.exists() && m_path.isFile()`. -/
def fileExists (sep : Char) (fs : FS) (p : List Char) : Bool :=
  pathExists sep fs p && isFile sep fs p

/-- `Directory::exists` (filesystem_unix.cpp:208-210,
filesystem_win.cpp:179-181): `m_path.exists() && m_path.isDirectory()`. -/
def dirExists (sep : Char) (fs : FS) (p : List Char) : Bool :=
  pathExists sep fs p && isDirectory sep fs p

/-- The name under `k` of an entry whose key is `key`, when `key` is an
immediate child of `k`. -/
def childName (k : Key) (key : Key) : Option (List Char) :=
  if key.length = k.length + 1 ∧ key.take k.length = k
  then key.getLast? else none

/-- Names of the immediate children of the directory with key `k`, in host
enumeration order. -/
def childNames (fs : FS) (k : Key) : List (List Char) :=
  fs.filterMap (fun e => childName k e.1)

/-- Host directory enumeration (`opendir`/`readdir` resp.
`FindFirstFileA`/`FindNextFileA`): fails (`none`) unless the path is a
directory; a successful enumeration emits the synthetic `"."` and `".."`
entries followed by the children in host order. -/
def readdir (sep : Char) (fs : FS) (p : List Char) :
    Option (List (List Char)) :=
  match statPath sep fs p with
  | some Node.dir => some (['.'] :: ['.', '.'] :: childNames fs (comps sep p))
  | _ => none

/-- `Directory::list` (filesystem_unix.cpp:236-265,
filesystem_win.cpp:207-237): enumeration failure yields an empty sequence;
`"."` and `".."` are skipped; each child contributes its full path
`m_path + sep + name`, and when `recursive` is set a child directory's own
recursive listing follows its entry immediately.  The `fuel` argument
bounds the recursion depth of the model. -/
def dirList (sep : Char) : Nat → FS → List Char → Bool → List (List Char)
  | 0, _, _, _ => []
  | fuel + 1, fs, p, recursive =>
    match readdir sep fs p with
    | none => []
    | some names =>
      names.flatMap fun name =>
        if name = ['.'] ∨ name = ['.', '.'] then []
        else
          let fp := p ++ sep :: name
          fp :: (if recursive ∧ isDirectory sep fs fp = true
                 then dirList sep fuel fs fp true else [])

/-- Host `unlink` / `DeleteFileA`: removes a non-directory entry; fails on
the empty string, on the root, on a missing entry, and on a directory. -/
def unlink (sep : Char) (fs : FS) (p : List Char) : Option FS :=
  if p = [] then none
  else if comps sep p = [] then none
  else
    match lookupKey fs (comps sep p) with
    | some (Node.file _) => some (eraseKey fs (comps sep p))
    | some Node.other => some (eraseKey fs (comps sep p))
    | _ => none

/-- `File::remove` (filesystem_unix.cpp:199-203, filesystem_win.cpp:170-174):
throws `"Could not delete file"` when the host deletion fails. -/
def fileRemove (sep : Char) (fs : FS) (p : List Char) :
    Except (Err × FS) FS :=
  match unlink sep fs p with
  | some fs' => Except.ok fs'
  | none => Except.error (Err.couldNotDeleteFile, fs)

/-- `key` lies strictly below `k`. -/
def strictUnder (k : Key) (key : Key) : Bool :=
  decide (key.take k.length = k) && decide (key ≠ k)

/-- No entry of `fs` lies strictly below `k`. -/
def childless (fs : FS) (k : Key) : Bool :=
  fs.all (fun e => !strictUnder k e.1)

/-- Host `rmdir` / `RemoveDirectoryA`: removes an empty directory; fails on
the empty string, the root, a missing entry, a non-directory, and a
non-empty directory. -/
def rmdirH (sep : Char) (fs : FS) (p : List Char) : Option FS :=
  if p = [] then none
  else if comps sep p = [] then none
  else
    match lookupKey fs (comps sep p) with
    | some Node.dir =>
      if childless fs (comps sep p)
      then some (eraseKey fs (comps sep p)) else none
    | _ => none

/-- Result of host `mkdir` / `CreateDirectoryA`; the library only
distinguishes "already exists" (`EEXIST` / `ERROR_ALREADY_EXISTS`) from
every other failure. -/
inductive MkdirRes where
  | ok (fs : FS)
  | eexist
  | otherFailure
deriving DecidableEq

/-- Host `mkdir` / `CreateDirectoryA`: fails with "already exists" when any
node occupies the path (the root included); fails otherwise when the path
is empty or the parent is not an existing directory; on success the new
directory is appended (its enumeration position is at the end). -/
def mkdirH (sep : Char) (fs : FS) (p : List Char) : MkdirRes :=
  if p = [] then MkdirRes.otherFailure
  else if comps sep p = [] then MkdirRes.eexist
  else if (lookupKey fs (comps sep p)).isSome then MkdirRes.eexist
  else if (comps sep p).dropLast = []
      ∨ lookupKey fs (comps sep p).dropLast = some Node.dir
  then MkdirRes.ok (fs ++ [(comps sep p, Node.dir)])
  else MkdirRes.otherFailure

/-- `Directory::create` (filesystem_unix.cpp:212-216,
filesystem_win.cpp:183-187): `mkdir(...) != 0 && errno != EEXIST` throws;
an "already exists" failure is silently treated as success. -/
def dirCreate (sep : Char) (fs : FS) (p : List Char) :
    Except (Err × FS) FS :=
  match mkdirH sep fs p with
  | MkdirRes.ok fs' => Except.ok fs'
  | MkdirRes.eexist => Except.ok fs
  | MkdirRes.otherFailure => Except.error (Err.couldNotCreateDirectory, fs)

/-- Opening a path for writing with truncation (`std::ofstream`): fails on
the empty string, the root, a directory, and a missing parent directory;
otherwise the file is created or overwritten in place. -/
def writeFileH (sep : Char) (fs : FS) (p : List Char) (content : List Nat) :
    Option FS :=
  if p = [] then none
  else if comps sep p = [] then none
  else
    match lookupKey fs (comps sep p) with
    | some Node.dir => none
    | some _ =>
      some (fs.map fun e =>
        if e.1 = comps sep p then (comps sep p, Node.file content) else e)
    | none =>
      if (comps sep p).dropLast = []
          ∨ lookupKey fs (comps sep p).dropLast = some Node.dir
      then some (fs ++ [(comps sep p, Node.file content)]) else none

/-- `File::copy`, POSIX (filesystem_unix.cpp:177-189): open the source for
reading (succeeds only for a regular file), open the destination for
writing with truncation, then stream the bytes across.  Each failed open
throws; the state at a throw is unchanged. -/
def copyU (fs : FS) (s d : List Char) : Except (Err × FS) FS :=
  match statPath '/' fs s with
  | some (Node.file content) =>
    match writeFileH '/' fs d content with
    | some fs' => Except.ok fs'
    | none => Except.error (Err.couldNotOpenDestForCopy, fs)
  | _ => Except.error (Err.couldNotOpenSourceForCopy, fs)

/-- Host POSIX `rename`: moves a node (a directory together with its
subtree); may overwrite an existing non-directory destination.  Fails on
missing source, empty strings, the root, a destination inside the source,
an existing directory destination, or a missing destination parent. -/
def renameH (fs : FS) (s d : List Char) : Option FS :=
  if s = [] ∨ d = [] then none
  else if comps '/' s = [] ∨ comps '/' d = [] then none
  else if (lookupKey fs (comps '/' s)).isNone then none
  else if comps '/' s = comps '/' d then some fs
  else if (comps '/' d).take (comps '/' s).length = comps '/' s then none
  else if lookupKey fs (comps '/' d) = some Node.dir then none
  else if (comps '/' d).dropLast = []
      ∨ lookupKey fs (comps '/' d).dropLast = some Node.dir
  then
    some ((eraseKey fs (comps '/' d)).map fun e =>
      if e.1.take (comps '/' s).length = comps '/' s
      then (comps '/' d ++ e.1.drop (comps '/' s).length, e.2) else e)
  else none

/-- `File::move`, POSIX (filesystem_unix.cpp:191-197): try the host
`rename`; exactly when it fails, fall back to `copy(destination)` followed
by `remove()`. -/
def moveU (fs : FS) (s d : List Char) : Except (Err × FS) FS :=
  match renameH fs s d with
  | some fs' => Except.ok fs'
  | none =>
    match copyU fs s d with
    | Except.ok fs1 => fileRemove '/' fs1 s
    | Except.error e => Except.error e

/-- Host `MoveFileA`: like `rename` but fails whenever any node already
occupies the destination path. -/
def moveFileA (fs : FS) (s d : List Char) : Option FS :=
  if s = [] ∨ d = [] then none
  else if comps '\\' s = [] ∨ comps '\\' d = [] then none
  else if (lookupKey fs (comps '\\' s)).isNone then none
  else if (lookupKey fs (comps '\\' d)).isSome then none
  else if (comps '\\' d).take (comps '\\' s).length = comps '\\' s then none
  else if (comps '\\' d).dropLast = []
      ∨ lookupKey fs (comps '\\' d).dropLast = some Node.dir
  then
    some (fs.map fun e =>
      if e.1.take (comps '\\' s).length = comps '\\' s
      then (comps '\\' d ++ e.1.drop (comps '\\' s).length, e.2) else e)
  else none

/-- `File::move`, Windows (filesystem_win.cpp:164-168): a single
`MoveFileA` call; on failure it throws `"Could not move file"` — there is
no copy-and-delete fallback. -/
def moveW (fs : FS) (s d : List Char) : Except (Err × FS) FS :=
  match moveFileA fs s d with
  | some fs' => Except.ok fs'
  | none => Except.error (Err.couldNotMoveFile, fs)

/-- Host `CopyFileA` with `bFailIfExists = FALSE`: duplicates a regular
file, overwriting a non-directory destination. -/
def copyFileA (fs : FS) (s d : List Char) : Option FS :=
  match statPath '\\' fs s with
  | some (Node.file content) => writeFileH '\\' fs d content
  | _ => none

/-- The child loop of `Directory::remove(true)`: each child is processed in
enumeration order; the first exception aborts the loop and is propagated
together with the state at the throw point. -/
def removeChildren (step : FS → List Char → Except (Err × FS) FS) :
    FS → List (List Char) → Except (Err × FS) FS
  | fs, [] => Except.ok fs
  | fs, c :: rest =>
    match step fs c with
    | Except.ok fs' => removeChildren step fs' rest
    | Except.error e => Except.error e

/-- `Directory::remove` (filesystem_unix.cpp:218-234,
filesystem_win.cpp:189-205): when `recursive` is set, first enumerate the
immediate children with `list(false)` and remove each in order, then
remove the directory itself with `rmdir`/`RemoveDirectoryA`, throwing
`"Could not remove directory"` when that host call fails. -/
def dirRemove (sep : Char) : Nat → FS → List Char → Bool →
    Except (Err × FS) FS
  | 0, fs, _, _ => Except.error (Err.outOfFuel, fs)
  | fuel + 1, fs, p, recursive =>
    match
      (if recursive then
        removeChildren
          (fun fsc c =>
            if isDirectory sep fsc c then dirRemove sep fuel fsc c true
            else fileRemove sep fsc c)
          fs (dirList sep 1 fs p false)
      else Except.ok fs) with
    | Except.ok fs1 =>
      match rmdirH sep fs1 p with
      | some fs2 => Except.ok fs2
      | none => Except.error (Err.couldNotRemoveDirectory, fs1)
    | Except.error e => Except.error e

/-- The per-child dispatch of `Directory::remove(true)`
(filesystem_unix.cpp:222-228, filesystem_win.cpp:193-199): a child
directory is removed via `Directory(entry).remove(true)`, any other child
via `File(entry).remove()`; the type test is a fresh host lookup in the
current state. -/
def removeStep (sep : Char) (fuel : Nat) (fs : FS) (c : List Char) :
    Except (Err × FS) FS :=
  if isDirectory sep fs c then dirRemove sep fuel fs c true
  else fileRemove sep fs c

/-- A well-formed entry name: nonempty, not a sentinel, and free of both
separator characters (host directory entries always satisfy this). -/
def goodComp (c : List Char) : Bool :=
  !(decide (c = []) || decide (c = ['.']) || decide (c = ['.', '.'])
    || c.contains '/' || c.contains '\\')

/-- A well-formed filesystem: every component of every key is a real entry
name. -/
def wfFS (fs : FS) : Bool := fs.all (fun e => e.1.all goodComp)

/-! ### Helper lemmas about the path constructors -/

theorem unixSepChar_ne_backslash (c : Char) : unixSepChar c ≠ '\\' := by
  unfold unixSepChar
  split <;> simp_all

theorem unixSepChar_fix (c : Char) (h : c ≠ '\\') : unixSepChar c = c := by
  simp [unixSepChar, h]

theorem winSepChar_ne_slash (c : Char) : winSepChar c ≠ '/' := by
  unfold winSepChar
  split <;> simp_all

theorem winSepChar_fix (c : Char) (h : c ≠ '/') : winSepChar c = c := by
  simp [winSepChar, h]

theorem map_unixSepChar_fix (u : List Char) (h : ∀ c ∈ u, c ≠ '\\') :
    u.map unixSepChar = u := by
  conv_rhs => rw [← List.map_id u]
  exact List.map_congr_left fun c hc => unixSepChar_fix c (h c hc)

theorem not_backslash_mem_map (s : List Char) : '\\' ∉ s.map unixSepChar := by
  intro h
  rcases List.mem_map.mp h with ⟨a, _, ha⟩
  exact unixSepChar_ne_backslash a ha

theorem not_slash_mem_map (s : List Char) : '/' ∉ s.map winSepChar := by
  intro h
  rcases List.mem_map.mp h with ⟨a, _, ha⟩
  exact winSepChar_ne_slash a ha

theorem mem_of_mem_dropLast {α : Type} {l : List α} {a : α}
    (h : a ∈ l.dropLast) : a ∈ l := by
  have hsub : l.dropLast ⊆ l := by
    rw [List.dropLast_eq_take]
    exact List.take_subset _ _
  exact hsub h

theorem getLast?_map (f : Char → Char) (l : List Char) :
    (l.map f).getLast? = l.getLast?.map f := by
  induction l using List.reverseRecOn with
  | nil => simp
  | append_singleton as a _ => simp

/-- If `t` has no backslash and the trailing-slash strip does not fire,
the POSIX `Path` constructor leaves `t` unchanged. -/
theorem pathMk_fix (t : List Char) (h1 : ∀ c ∈ t, c ≠ '\\')
    (h2 : ¬(t.length > 1 ∧ t.getLast? = some '/')) : Unix.pathMk t = t := by
  unfold Unix.pathMk
  rw [map_unixSepChar_fix t h1, if_neg h2]

/-! ### C2 / C3 / C4 theorems -/

/-- C2 counterexample: `Path` construction is not idempotent on the
POSIX implementation for a string ending in two separators: `"a//"`
normalizes to `"a/"`, and normalizing again gives `"a"`. -/
theorem C2_counterexample :
    Unix.pathMk (Unix.pathMk (String.toList "a//")) ≠
      Unix.pathMk (String.toList "a//") := by decide

/-- C2 (amended): for every input string `s`, `Path(s).toString()` contains
only the host's native separator on both implementations; construction is
idempotent on the Windows implementation for every `s`, and on the POSIX
implementation whenever the separator-normalized string does not end in two
separators (the constructor strips only a single trailing slash, so
additional trailing separators survive one application and are stripped by
the next). -/
theorem C2_amended (s : List Char) :
    ('\\' ∉ Unix.pathMk s)
    ∧ ('/' ∉ Win.pathMk s)
    ∧ (Win.pathMk (Win.pathMk s) = Win.pathMk s)
    ∧ (endsTwo '/' (s.map unixSepChar) = false →
        Unix.pathMk (Unix.pathMk s) = Unix.pathMk s) := by
  refine ⟨?_, ?_, ?_, ?_⟩
  · intro h
    have hmem : '\\' ∈ s.map unixSepChar := by
      unfold Unix.pathMk at h
      split at h
      · exact mem_of_mem_dropLast h
      · exact h
    exact not_backslash_mem_map s hmem
  · exact not_slash_mem_map s
  · unfold Win.pathMk
    rw [List.map_map]
    refine List.map_congr_left fun c _ => ?_
    exact winSepChar_fix (winSepChar c) (winSepChar_ne_slash c)
  · intro hends
    by_cases hcond : ((s.map unixSepChar).length > 1
        ∧ (s.map unixSepChar).getLast? = some '/')
    · have hs : Unix.pathMk s = (s.map unixSepChar).dropLast := by
        unfold Unix.pathMk
        rw [if_pos hcond]
      rw [hs]
      apply pathMk_fix
      · exact fun c hc h =>
          not_backslash_mem_map s (h ▸ mem_of_mem_dropLast hc)
      · intro h2
        simp [endsTwo, hcond.2, h2.2] at hends
    · have hs : Unix.pathMk s = s.map unixSepChar := by
        unfold Unix.pathMk
        rw [if_neg hcond]
      rw [hs]
      exact pathMk_fix _ (fun c hc h => not_backslash_mem_map s (h ▸ hc)) hcond

/-- C3 counterexample: on the POSIX implementation `Path("a//")` yields the
internal string `"a/"`, which ends in a separator but is not a root (its
`parent()` is a different path); on the Windows implementation `Path("a\\")`
keeps its trailing separator for the same reason. -/
theorem C3_counterexample :
    ((Unix.pathMk (String.toList "a//")).getLast? = some '/'
      ∧ Unix.parent (Unix.pathMk (String.toList "a//")) ≠
          Unix.pathMk (String.toList "a//"))
    ∧ ((Win.pathMk (String.toList "a\\")).getLast? = some '\\'
      ∧ Win.parent (Win.pathMk (String.toList "a\\")) ≠
          Win.pathMk (String.toList "a\\")) := by decide

/-- C3 (amended): the representation invariant "no trailing separator unless
the path is a root" holds on the POSIX implementation whenever the
separator-normalized input does not end in two separators (only a single
trailing slash is stripped); on the Windows implementation no stripping
happens at all, so the invariant only holds when the input itself does not
end in a separator character. -/
theorem C3_amended (s : List Char) :
    (endsTwo '/' (s.map unixSepChar) = false →
      (Unix.pathMk s).getLast? = some '/' → Unix.pathMk s = ['/'])
    ∧ (s.getLast? ≠ some '/' → s.getLast? ≠ some '\\' →
      (Win.pathMk s).getLast? ≠ some '\\') := by
  constructor
  · intro hends hlast
    by_cases hcond : ((s.map unixSepChar).length > 1
        ∧ (s.map unixSepChar).getLast? = some '/')
    · exfalso
      have hs : Unix.pathMk s = (s.map unixSepChar).dropLast := by
        unfold Unix.pathMk
        rw [if_pos hcond]
      rw [hs] at hlast
      simp [endsTwo, hcond.2, hlast] at hends
    · have hs : Unix.pathMk s = s.map unixSepChar := by
        unfold Unix.pathMk
        rw [if_neg hcond]
      rw [hs] at hlast ⊢
      have hlen : ¬ ((s.map unixSepChar).length > 1) := fun h =>
        hcond ⟨h, hlast⟩
      have hne : s.map unixSepChar ≠ [] := by
        intro h
        rw [h] at hlast
        simp at hlast
      have h1 : (s.map unixSepChar).length = 1 := by
        have := List.length_pos_of_ne_nil hne
        omega
      rcases List.length_eq_one.mp h1 with ⟨a, ha⟩
      rw [ha] at hlast ⊢
      simp at hlast
      simp [hlast]
  · intro h1 h2 hcon
    unfold Win.pathMk at hcon
    rw [getLast?_map] at hcon
    cases hl : s.getLast? with
    | none => rw [hl] at hcon; simp at hcon
    | some c =>
      rw [hl] at hcon
      simp only [Option.map_some'] at hcon
      have hc : winSepChar c = '\\' := by injection hcon
      by_cases hcs : c = '/'
      · exact h1 (hl.trans (by rw [hcs]))
      · rw [winSepChar_fix c hcs] at hc
        exact h2 (hl.trans (by rw [hc]))

theorem findLastOf_eq_none (pred : Char → Bool) (s : List Char)
    (h : ∀ c ∈ s, pred c = false) : findLastOf pred s = none := by
  induction s with
  | nil => rfl
  | cons c cs ih =>
    unfold findLastOf
    rw [ih (fun x hx => h x (List.mem_cons_of_mem c hx))]
    simp [h c (List.mem_cons_self c cs)]

theorem findLastOf_append (pred : Char → Bool) (a : List Char) (c0 : Char)
    (b : List Char) (hc : pred c0 = true) (hb : ∀ c ∈ b, pred c = false) :
    findLastOf pred (a ++ c0 :: b) = some a.length := by
  induction a with
  | nil =>
    rw [List.nil_append]
    unfold findLastOf
    rw [findLastOf_eq_none pred b hb]
    simp [hc]
  | cons x a' ih =>
    rw [List.cons_append]
    unfold findLastOf
    rw [ih]
    simp

/-- C4 counterexample: on the Windows implementation, for the path `"\foo"`
whose only separator is the leading root separator, `parent()` returns the
empty string rather than the root `"\"`. -/
theorem C4_counterexample :
    Win.parent (String.toList "\\foo") = []
    ∧ Win.parent (String.toList "\\foo") ≠ ['\\'] := by decide

/-- C4 (amended): `parent()` is a pure string derivation.  On the POSIX
implementation the three claimed cases hold: no slash gives `"."`, a slash
only at position 0 gives the root `"/"`, and otherwise the segment before
the last slash (run through the `Path` constructor).  On the Windows
implementation there is no root case: no separator gives the empty string,
and otherwise the segment before the last separator is returned
(constructor-normalized), so a path whose only separator is leading yields
the empty string, not the root. -/
theorem C4_amended (p : List Char) :
    ((∀ c ∈ p, c ≠ '/') → Unix.parent p = ['.'])
    ∧ (∀ b, p = '/' :: b → (∀ c ∈ b, c ≠ '/') → Unix.parent p = ['/'])
    ∧ (∀ a b, p = a ++ '/' :: b → a ≠ [] → (∀ c ∈ b, c ≠ '/') →
        Unix.parent p = Unix.pathMk a)
    ∧ ((∀ c ∈ p, c ≠ '\\' ∧ c ≠ '/') → Win.parent p = [])
    ∧ (∀ a c0 b, p = a ++ c0 :: b → (c0 = '\\' ∨ c0 = '/') →
        (∀ c ∈ b, c ≠ '\\' ∧ c ≠ '/') → Win.parent p = Win.pathMk a) := by
  refine ⟨?_, ?_, ?_, ?_, ?_⟩
  · intro h
    unfold Unix.parent
    rw [findLastOf_eq_none _ p (fun c hc => by simp [h c hc])]
    rfl
  · intro b hp hb
    subst hp
    unfold Unix.parent
    rw [show ('/' :: b) = ([] ++ '/' :: b) from rfl,
      findLastOf_append _ [] '/' b (by simp) (fun c hc => by simp [hb c hc])]
    simp
    rfl
  · intro a b hp ha hb
    subst hp
    unfold Unix.parent
    rw [findLastOf_append _ a '/' b (by simp) (fun c hc => by simp [hb c hc])]
    simp only []
    have hlen : a.length ≠ 0 := fun h => ha (List.length_eq_zero.mp h)
    rw [if_neg hlen, List.take_left]
  · intro h
    unfold Win.parent
    rw [findLastOf_eq_none _ p (fun c hc => by
      simp [(h c hc).1, (h c hc).2])]
    rfl
  · intro a c0 b hp hc0 hb
    subst hp
    unfold Win.parent
    rw [findLastOf_append _ a c0 b
      (by rcases hc0 with h | h <;> simp [h])
      (fun c hc => by simp [(hb c hc).1, (hb c hc).2])]
    simp only []
    rw [List.take_left]

/-- Witness for `C2_amended` at the concrete input `"a\b/"`. -/
theorem C2_witness :
    endsTwo '/' ((String.toList "a\\b/").map unixSepChar) = false
    ∧ Unix.pathMk (Unix.pathMk (String.toList "a\\b/")) =
        Unix.pathMk (String.toList "a\\b/") :=
  ⟨by decide, (C2_amended (String.toList "a\\b/")).2.2.2 (by decide)⟩

/-- Witness for `C3_amended` at the concrete inputs `"a/"` and `"ab"`. -/
theorem C3_witness :
    endsTwo '/' ((String.toList "a/").map unixSepChar) = false
    ∧ ((Unix.pathMk (String.toList "a/")).getLast? = some '/' →
        Unix.pathMk (String.toList "a/") = ['/'])
    ∧ (Win.pathMk (String.toList "ab")).getLast? ≠ some '\\' :=
  ⟨by decide, (C3_amended (String.toList "a/")).1 (by decide),
    (C3_amended (String.toList "ab")).2 (by decide) (by decide)⟩

/-- Witness for `C4_amended` at concrete inputs: `"abc"` (no separator),
`"ab/cd"` (POSIX general case) and `"ab\cd"` (Windows general case). -/
theorem C4_witness :
    Unix.parent (String.toList "abc") = ['.']
    ∧ Unix.parent (String.toList "ab/cd") = Unix.pathMk (String.toList "ab")
    ∧ Win.parent (String.toList "ab\\cd") = Win.pathMk (String.toList "ab") :=
  ⟨(C4_amended (String.toList "abc")).1 (by decide),
    (C4_amended (String.toList "ab/cd")).2.2.1 (String.toList "ab")
      (String.toList "cd") (by decide) (by decide) (by decide),
    (C4_amended (String.toList "ab\\cd")).2.2.2.2 (String.toList "ab") '\\'
      (String.toList "cd") (by decide) (Or.inl rfl) (by decide)⟩

/-! ### Helper lemmas about the filesystem model -/

theorem lookupKey_append (l1 l2 : FS) (k : Key) :
    lookupKey (l1 ++ l2) k =
      match lookupKey l1 k with
      | some v => some v
      | none => lookupKey l2 k := by
  induction l1 with
  | nil => rfl
  | cons e rest ih =>
    have hl : lookupKey ((e :: rest) ++ l2) k =
        if e.1 = k then some e.2 else lookupKey (rest ++ l2) k := rfl
    have hr : lookupKey (e :: rest) k =
        if e.1 = k then some e.2 else lookupKey rest k := rfl
    rw [hl, hr]
    by_cases h : e.1 = k
    · rw [if_pos h, if_pos h]
    · rw [if_neg h, if_neg h, ih]

theorem lookupKey_eraseKey_self (fs : FS) (k : Key) :
    lookupKey (eraseKey fs k) k = none := by
  induction fs with
  | nil => rfl
  | cons e rest ih =>
    unfold eraseKey at ih ⊢
    by_cases h : e.1 = k
    · simp only [List.filter_cons, h]
      simpa using ih
    · simp only [List.filter_cons]
      have : (decide (e.1 ≠ k)) = true := by simp [h]
      rw [this]
      simp only [if_pos trivial]
      unfold lookupKey
      rw [if_neg h]
      exact ih

theorem mem_of_mem_eraseKey {fs : FS} {k : Key} {e : Key × Node}
    (h : e ∈ eraseKey fs k) : e ∈ fs :=
  List.mem_of_mem_filter h

/-! ### C1 theorems -/

/-- C1 counterexample: on the Windows implementation, with files `a` and
`b` both present, the native `MoveFileA("a", "b")` fails (destination
exists), the claimed copy-then-delete fallback would succeed, yet
`File::move` raises `"Could not move file"` instead of falling back. -/
theorem C1_counterexample :
    moveFileA [([['a']], Node.file [1]), ([['b']], Node.file [2])]
        ['a'] ['b'] = none
    ∧ copyFileA [([['a']], Node.file [1]), ([['b']], Node.file [2])]
        ['a'] ['b'] =
        some [([['a']], Node.file [1]), ([['b']], Node.file [1])]
    ∧ unlink '\\' [([['a']], Node.file [1]), ([['b']], Node.file [1])]
        ['a'] = some [([['b']], Node.file [1])]
    ∧ moveW [([['a']], Node.file [1]), ([['b']], Node.file [2])]
        ['a'] ['b'] =
        Except.error (Err.couldNotMoveFile,
          [([['a']], Node.file [1]), ([['b']], Node.file [2])]) :=
  ⟨by decide, by decide, by decide, by decide⟩

/-- C1 (amended): on the POSIX implementation `File::move` attempts the
host `rename` first and falls back to copy-then-delete-source exactly when
the rename fails; on the Windows implementation `File::move` is a single
native `MoveFileA` call that raises on failure, with no fallback. -/
theorem C1_amended (fs : FS) (s d : List Char) :
    (∀ fs', renameH fs s d = some fs' → moveU fs s d = Except.ok fs')
    ∧ (renameH fs s d = none →
        moveU fs s d =
          (copyU fs s d).bind (fun fs1 => fileRemove '/' fs1 s))
    ∧ (∀ fs', moveFileA fs s d = some fs' → moveW fs s d = Except.ok fs')
    ∧ (moveFileA fs s d = none →
        moveW fs s d = Except.error (Err.couldNotMoveFile, fs)) := by
  refine ⟨?_, ?_, ?_, ?_⟩
  · intro fs' h
    unfold moveU
    rw [h]
  · intro h
    unfold moveU
    rw [h]
    cases hc : copyU fs s d with
    | ok fs1 => rfl
    | error e => rfl
  · intro fs' h
    unfold moveW
    rw [h]
  · intro h
    unfold moveW
    rw [h]

/-- Witness for `C1_amended`: a POSIX rename success and the Windows
no-fallback failure, each at a concrete state. -/
theorem C1_witness :
    renameH [([['a']], Node.file [1])] ['a'] ['b'] =
        some [([['b']], Node.file [1])]
    ∧ moveU [([['a']], Node.file [1])] ['a'] ['b'] =
        Except.ok [([['b']], Node.file [1])]
    ∧ moveFileA [([['a']], Node.file [1]), ([['b']], Node.file [2])]
        ['a'] ['b'] = none
    ∧ moveW [([['a']], Node.file [1]), ([['b']], Node.file [2])]
        ['a'] ['b'] =
        Except.error (Err.couldNotMoveFile,
          [([['a']], Node.file [1]), ([['b']], Node.file [2])]) :=
  ⟨by decide,
    (C1_amended [([['a']], Node.file [1])] ['a'] ['b']).1 _ (by decide),
    by decide,
    (C1_amended [([['a']], Node.file [1]), ([['b']], Node.file [2])]
      ['a'] ['b']).2.2.2 (by decide)⟩

/-! ### C7 / C8 / C9 / C10 theorems -/

/-- C7: the existence/type predicates and directory enumeration are total
boolean- resp. sequence-valued functions (they model functions that throw
no exception); a failed host metadata lookup makes all three predicates
report `false`, and a failed host enumeration open makes `list` return the
empty sequence, at either separator convention. -/
theorem C7_silentFalseTier (sep : Char) (fs : FS) (p : List Char) :
    (statPath sep fs p = none →
      pathExists sep fs p = false
      ∧ isDirectory sep fs p = false
      ∧ isFile sep fs p = false)
    ∧ (readdir sep fs p = none →
      ∀ fuel recursive, dirList sep fuel fs p recursive = []) := by
  constructor
  · intro h
    refine ⟨?_, ?_, ?_⟩
    · simp [pathExists, h]
    · simp [isDirectory, h]
    · simp [isFile, h]
  · intro h fuel recursive
    cases fuel with
    | zero => rfl
    | succ n =>
      unfold dirList
      rw [h]

/-- Witness for `C7_silentFalseTier` at the empty filesystem and the path
`"missing"`. -/
theorem C7_witness :
    statPath '/' [] (String.toList "missing") = none
    ∧ isFile '/' [] (String.toList "missing") = false
    ∧ readdir '/' [] (String.toList "missing") = none
    ∧ dirList '/' 5 [] (String.toList "missing") true = [] :=
  ⟨by decide,
    ((C7_silentFalseTier '/' [] (String.toList "missing")).1
      (by decide)).2.2,
    by decide,
    (C7_silentFalseTier '/' [] (String.toList "missing")).2 (by decide) 5
      true⟩

/-- C8: `Directory::create` is idempotent — when the directory already
exists the call returns successfully with the state unchanged, a second
`create()` after a successful one never fails, and any host rejection other
than "already exists" raises `CreateError`. -/
theorem C8_createIdempotent (sep : Char) (fs : FS) (p : List Char) :
    (isDirectory sep fs p = true → dirCreate sep fs p = Except.ok fs)
    ∧ (∀ fs', dirCreate sep fs p = Except.ok fs' →
        dirCreate sep fs' p = Except.ok fs')
    ∧ (mkdirH sep fs p = MkdirRes.otherFailure →
        dirCreate sep fs p = Except.error (Err.couldNotCreateDirectory, fs)) := by
  refine ⟨?_, ?_, ?_⟩
  · intro h
    have hstat : statPath sep fs p = some Node.dir := of_decide_eq_true h
    have hp : ¬ p = [] := by
      intro hp
      unfold statPath at hstat
      rw [if_pos hp] at hstat
      exact absurd hstat (by simp)
    unfold statPath at hstat
    rw [if_neg hp] at hstat
    have hex : mkdirH sep fs p = MkdirRes.eexist := by
      unfold mkdirH
      rw [if_neg hp]
      by_cases hcs : comps sep p = []
      · rw [if_pos hcs]
      · rw [if_neg hcs]
        rw [if_neg hcs] at hstat
        rw [hstat]
        rfl
    unfold dirCreate
    rw [hex]
  · intro fs' h
    unfold dirCreate at h
    cases hmk : mkdirH sep fs p with
    | eexist =>
      rw [hmk] at h
      have hfs : fs = fs' := by injection h
      subst hfs
      unfold dirCreate
      rw [hmk]
    | otherFailure =>
      rw [hmk] at h
      exact absurd h (by simp)
    | ok fs0 =>
      rw [hmk] at h
      have hfs : fs0 = fs' := by injection h
      subst hfs
      unfold mkdirH at hmk
      split at hmk
      · exact absurd hmk (by simp)
      · rename_i hp
        split at hmk
        · exact absurd hmk (by simp)
        · rename_i hcs
          split at hmk
          · exact absurd hmk (by simp)
          · split at hmk
            · have hfs0 : fs ++ [(comps sep p, Node.dir)] = fs0 := by
                injection hmk
              have hex : mkdirH sep fs0 p = MkdirRes.eexist := by
                unfold mkdirH
                rw [if_neg hp, if_neg hcs]
                have hsome : (lookupKey fs0 (comps sep p)).isSome = true := by
                  rw [← hfs0, lookupKey_append]
                  cases hl : lookupKey fs (comps sep p) with
                  | some v => simp
                  | none => simp [lookupKey]
                rw [if_pos hsome]
              unfold dirCreate
              rw [hex]
            · exact absurd hmk (by simp)
  · intro h
    unfold dirCreate
    rw [h]

/-- Witness for `C8_createIdempotent`: creating an existing directory
succeeds unchanged, and a second `create()` after a successful creation
succeeds. -/
theorem C8_witness :
    isDirectory '/' [([['d']], Node.dir)] ['d'] = true
    ∧ dirCreate '/' [([['d']], Node.dir)] ['d'] =
        Except.ok [([['d']], Node.dir)]
    ∧ dirCreate '/' [] ['n'] = Except.ok [([['n']], Node.dir)]
    ∧ dirCreate '/' [([['n']], Node.dir)] ['n'] =
        Except.ok [([['n']], Node.dir)] :=
  ⟨by decide,
    (C8_createIdempotent '/' [([['d']], Node.dir)] ['d']).1 (by decide),
    by decide,
    (C8_createIdempotent '/' [] ['n']).2.1 [([['n']], Node.dir)] (by decide)⟩

/-- C9: `File::exists` is true exactly when the path resolves on the host
to a regular file (existence and regular-file kind both required), and
`Directory::exists` is true exactly when the path resolves to a
directory (POSIX implementation; `stat` + `S_ISREG`/`S_ISDIR`). -/
theorem C9_existsKindConjunction (fs : FS) (p : List Char) :
    (fileExists '/' fs p = true ↔
      ∃ content, statPath '/' fs p = some (Node.file content))
    ∧ (dirExists '/' fs p = true ↔ statPath '/' fs p = some Node.dir)
    ∧ (statPath '/' fs p = some Node.other →
      pathExists '/' fs p = true ∧ fileExists '/' fs p = false
        ∧ dirExists '/' fs p = false) := by
  refine ⟨?_, ?_, ?_⟩
  · unfold fileExists pathExists isFile
    cases h : statPath '/' fs p with
    | none => simp
    | some n => cases n <;> simp
  · unfold dirExists pathExists isDirectory
    cases h : statPath '/' fs p with
    | none => simp
    | some n => cases n <;> simp
  · intro h
    refine ⟨?_, ?_, ?_⟩
    · simp [pathExists, h]
    · simp [fileExists, isFile, h]
    · simp [dirExists, isDirectory, h]

/-- Witness for `C9_existsKindConjunction` exercising the `Node.other`
hypothesis: a non-regular node exists but is neither a `File` nor a
`Directory` in the library's sense. -/
theorem C9_witness :
    statPath '/' [([['s']], Node.other)] ['s'] = some Node.other
    ∧ pathExists '/' [([['s']], Node.other)] ['s'] = true
    ∧ fileExists '/' [([['s']], Node.other)] ['s'] = false :=
  ⟨by decide,
    ((C9_existsKindConjunction [([['s']], Node.other)] ['s']).2.2
      (by decide)).1,
    ((C9_existsKindConjunction [([['s']], Node.other)] ['s']).2.2
      (by decide)).2.1⟩

/-- C10: in the POSIX `File::move`, when the rename fails and the fallback
copy then fails, the error propagates with the filesystem unchanged — in
particular the source file is not deleted and its content is intact,
because `remove()` runs only after `copy` returns successfully. -/
theorem C10_sourceSurvivesCopyFailure (fs : FS) (s d : List Char)
    (e : Err) (fs2 : FS)
    (hren : renameH fs s d = none)
    (hcopy : copyU fs s d = Except.error (e, fs2)) :
    moveU fs s d = Except.error (e, fs2)
    ∧ fs2 = fs
    ∧ statPath '/' fs2 s = statPath '/' fs s := by
  have hfs : fs2 = fs := by
    unfold copyU at hcopy
    split at hcopy
    · split at hcopy
      · exact absurd hcopy (by simp)
      · have := hcopy
        simp only [Except.error.injEq, Prod.mk.injEq] at this
        exact this.2.symm
    · have := hcopy
      simp only [Except.error.injEq, Prod.mk.injEq] at this
      exact this.2.symm
  refine ⟨?_, hfs, by rw [hfs]⟩
  unfold moveU
  rw [hren, hcopy]

/-- Witness for `C10_sourceSurvivesCopyFailure`: moving `"a"` to `"x/y"`
(missing destination parent) fails in the copy step and leaves the source
untouched. -/
theorem C10_witness :
    renameH [([['a']], Node.file [1])] ['a'] ['x', '/', 'y'] = none
    ∧ copyU [([['a']], Node.file [1])] ['a'] ['x', '/', 'y'] =
        Except.error (Err.couldNotOpenDestForCopy, [([['a']], Node.file [1])])
    ∧ moveU [([['a']], Node.file [1])] ['a'] ['x', '/', 'y'] =
        Except.error (Err.couldNotOpenDestForCopy, [([['a']], Node.file [1])]) :=
  ⟨by decide, by decide,
    (C10_sourceSurvivesCopyFailure [([['a']], Node.file [1])] ['a']
      ['x', '/', 'y'] Err.couldNotOpenDestForCopy [([['a']], Node.file [1])]
      (by decide) (by decide)).1⟩

/-! ### C5 theorems -/

theorem removeChildren_append
    (step : FS → List Char → Except (Err × FS) FS) (fs : FS)
    (xs ys : List (List Char)) :
    removeChildren step fs (xs ++ ys) =
      match removeChildren step fs xs with
      | Except.ok fs' => removeChildren step fs' ys
      | Except.error e => Except.error e := by
  induction xs generalizing fs with
  | nil => rfl
  | cons c rest ih =>
    rw [List.cons_append]
    have hl : removeChildren step fs (c :: (rest ++ ys)) =
        match step fs c with
        | Except.ok fs' => removeChildren step fs' (rest ++ ys)
        | Except.error e => Except.error e := rfl
    have hr : removeChildren step fs (c :: rest) =
        match step fs c with
        | Except.ok fs' => removeChildren step fs' rest
        | Except.error e => Except.error e := rfl
    rw [hl, hr]
    cases h : step fs c with
    | ok fs' => exact ih fs'
    | error e => rfl

/-- One-step unfolding of `Directory::remove(recursive = true)` at positive
fuel. -/
theorem dirRemove_succ (sep : Char) (fuel : Nat) (fs : FS) (p : List Char) :
    dirRemove sep (fuel + 1) fs p true =
      match removeChildren (removeStep sep fuel) fs
          (dirList sep 1 fs p false) with
      | Except.ok fs1 =>
        match rmdirH sep fs1 p with
        | some fs2 => Except.ok fs2
        | none => Except.error (Err.couldNotRemoveDirectory, fs1)
      | Except.error e => Except.error e := rfl

/-- C5: `Directory::remove(true)` enumerates the immediate children with
`list(false)` and removes them in enumeration order through the per-child
dispatch (`Directory(child).remove(true)` for directories,
`File(child).remove()` otherwise) before removing the directory itself.
If the removal of child `i` fails after the first `i` children were removed
successfully, the whole operation returns exactly that child's error and
the state the failing child left behind: no later child is touched, the
directory itself is not removed, and nothing is rolled back.  When the
operation succeeds, the directory and every descendant entry are gone. -/
theorem C5_removeRecursive (sep : Char) (fuel : Nat) (fs : FS)
    (p : List Char) :
    (∀ (i : Nat) (hi : i < (dirList sep 1 fs p false).length)
        (fsi fse : FS) (e : Err),
      removeChildren (removeStep sep fuel) fs
          ((dirList sep 1 fs p false).take i) = Except.ok fsi →
      removeStep sep fuel fsi ((dirList sep 1 fs p false).get ⟨i, hi⟩) =
          Except.error (e, fse) →
      dirRemove sep (fuel + 1) fs p true = Except.error (e, fse))
    ∧ (∀ fs', dirRemove sep (fuel + 1) fs p true = Except.ok fs' →
        lookupKey fs' (comps sep p) = none
        ∧ ∀ ent ∈ fs', strictUnder (comps sep p) ent.1 = false) := by
  constructor
  · intro i hi fsi fse e hpre hfail
    have hdecomp : dirList sep 1 fs p false =
        (dirList sep 1 fs p false).take i ++
          ((dirList sep 1 fs p false).get ⟨i, hi⟩ ::
            (dirList sep 1 fs p false).drop (i + 1)) := by
      conv_lhs => rw [← List.take_append_drop i (dirList sep 1 fs p false)]
      rw [List.drop_eq_getElem_cons hi, List.get_eq_getElem]
    have hsplit : removeChildren (removeStep sep fuel) fs
        (dirList sep 1 fs p false) = Except.error (e, fse) := by
      rw [hdecomp, removeChildren_append, hpre]
      show removeChildren (removeStep sep fuel) fsi
          ((dirList sep 1 fs p false).get ⟨i, hi⟩ ::
            (dirList sep 1 fs p false).drop (i + 1)) = Except.error (e, fse)
      have hstep : removeChildren (removeStep sep fuel) fsi
          ((dirList sep 1 fs p false).get ⟨i, hi⟩ ::
            (dirList sep 1 fs p false).drop (i + 1)) =
          match removeStep sep fuel fsi
              ((dirList sep 1 fs p false).get ⟨i, hi⟩) with
          | Except.ok fs' =>
            removeChildren (removeStep sep fuel) fs'
              ((dirList sep 1 fs p false).drop (i + 1))
          | Except.error e => Except.error e := rfl
      rw [hstep, hfail]
    rw [dirRemove_succ, hsplit]
  · intro fs' hok
    rw [dirRemove_succ] at hok
    cases hrc : removeChildren (removeStep sep fuel) fs
        (dirList sep 1 fs p false) with
    | error e =>
      rw [hrc] at hok
      exact absurd hok (by simp)
    | ok fs1 =>
      rw [hrc] at hok
      have hok2 : (match rmdirH sep fs1 p with
          | some fs2 => Except.ok fs2
          | none =>
            Except.error (Err.couldNotRemoveDirectory, fs1)) =
          Except.ok fs' := hok
      cases hrm : rmdirH sep fs1 p with
      | none =>
        rw [hrm] at hok2
        exact absurd hok2 (by simp)
      | some fs2 =>
        rw [hrm] at hok2
        have hfs2 : fs2 = fs' := by injection hok2
        subst hfs2
        unfold rmdirH at hrm
        split at hrm
        · exact absurd hrm (by simp)
        · split at hrm
          · exact absurd hrm (by simp)
          · split at hrm
            · rename_i hdir
              split at hrm
              · rename_i hchildless
                have herase : eraseKey fs1 (comps sep p) = fs2 := by
                  injection hrm
                constructor
                · rw [← herase]
                  exact lookupKey_eraseKey_self fs1 (comps sep p)
                · intro ent hent
                  have hmem : ent ∈ fs1 :=
                    mem_of_mem_eraseKey (herase ▸ hent)
                  have hall := List.all_eq_true.mp hchildless ent hmem
                  simpa using hall
              · exact absurd hrm (by simp)
            · exact absurd hrm (by simp)

/-- Witness for `C5_removeRecursive`: a directory whose enumeration lists
the same child twice (the filesystem mutated concurrently, as far as the
library can tell) — the first removal succeeds, the second throws
`"Could not delete file"`, and the whole recursive removal propagates that
error with the directory itself still present. -/
theorem C5_witness :
    removeChildren (removeStep '/' 1)
        [([['d']], Node.dir), ([['d'], ['x']], Node.file []),
          ([['d'], ['x']], Node.file [])]
        ((dirList '/' 1
          [([['d']], Node.dir), ([['d'], ['x']], Node.file []),
            ([['d'], ['x']], Node.file [])] ['d'] false).take 1) =
      Except.ok [([['d']], Node.dir)]
    ∧ dirRemove '/' 2
        [([['d']], Node.dir), ([['d'], ['x']], Node.file []),
          ([['d'], ['x']], Node.file [])] ['d'] true =
      Except.error (Err.couldNotDeleteFile, [([['d']], Node.dir)]) :=
  ⟨by decide,
    (C5_removeRecursive '/' 1
      [([['d']], Node.dir), ([['d'], ['x']], Node.file []),
        ([['d'], ['x']], Node.file [])] ['d']).1 1 (by decide)
      [([['d']], Node.dir)] [([['d']], Node.dir)] Err.couldNotDeleteFile
      (by decide) (by decide)⟩

/-! ### C6 theorems -/

theorem mem_of_getLast?_eq {α : Type} {l : List α} {a : α}
    (h : l.getLast? = some a) : a ∈ l := by
  rcases List.mem_getLast?_eq_getLast (Option.mem_def.mpr h) with ⟨hne, heq⟩
  rw [heq]
  exact List.getLast_mem hne

theorem flatMap_congr_mem {α β : Type} (l : List α) (f g : α → List β)
    (h : ∀ a ∈ l, f a = g a) : l.flatMap f = l.flatMap g := by
  induction l with
  | nil => rfl
  | cons a rest ih =>
    rw [List.flatMap_cons, List.flatMap_cons,
      h a (List.mem_cons_self a rest),
      ih (fun x hx => h x (List.mem_cons_of_mem a hx))]

/-- In a well-formed filesystem every enumerated child name is a real
entry name. -/
theorem childNames_good (fs : FS) (k : Key) (n : List Char)
    (hwf : wfFS fs = true) (hn : n ∈ childNames fs k) : goodComp n = true := by
  rcases List.mem_filterMap.mp hn with ⟨e, hmem, hcn⟩
  unfold childName at hcn
  split at hcn
  · have hlast : e.1.getLast? = some n := hcn
    have hninkey : n ∈ e.1 := mem_of_getLast?_eq hlast
    have hall := List.all_eq_true.mp (List.all_eq_true.mp hwf e hmem)
    exact hall n hninkey
  · exact absurd hcn (by simp)

/-- One-step unfolding of `Directory::list` at positive fuel. -/
theorem dirList_succ (sep : Char) (fuel : Nat) (fs : FS) (p : List Char)
    (recursive : Bool) :
    dirList sep (fuel + 1) fs p recursive =
      match readdir sep fs p with
      | none => []
      | some names =>
        names.flatMap fun name =>
          if name = ['.'] ∨ name = ['.', '.'] then []
          else (p ++ sep :: name) ::
            (if recursive ∧ isDirectory sep fs (p ++ sep :: name) = true
             then dirList sep fuel fs (p ++ sep :: name) true else []) := rfl

/-- Every entry of a recursive listing over a well-formed filesystem is a
path of the shape `prefix ++ sep ++ name` with `name` a real entry name —
in particular no listing entry is a `"."` or `".."` sentinel. -/
theorem dirList_entry_shape (sep : Char) :
    ∀ (fuel : Nat) (fs : FS) (p : List Char), wfFS fs = true →
      ∀ q ∈ dirList sep fuel fs p true,
        ∃ pre n, q = pre ++ sep :: n ∧ goodComp n = true := by
  intro fuel
  induction fuel with
  | zero =>
    intro fs p _ q hq
    exact absurd hq (by simp [dirList])
  | succ fuel ih =>
    intro fs p hwf q hq
    rw [dirList_succ] at hq
    cases hrd : readdir sep fs p with
    | none =>
      rw [hrd] at hq
      exact absurd hq (by simp)
    | some names =>
      rw [hrd] at hq
      rcases List.mem_flatMap.mp hq with ⟨name, hnmem, hqin⟩
      by_cases hsent : name = ['.'] ∨ name = ['.', '.']
      · rw [if_pos hsent] at hqin
        exact absurd hqin (by simp)
      · rw [if_neg hsent] at hqin
        have hncn : name ∈ childNames fs (comps sep p) := by
          unfold readdir at hrd
          cases hstat : statPath sep fs p with
          | none =>
            rw [hstat] at hrd
            exact absurd hrd (by simp)
          | some nd =>
            rw [hstat] at hrd
            cases nd with
            | file c => exact absurd hrd (by simp)
            | other => exact absurd hrd (by simp)
            | dir =>
              have hnames :
                  names = ['.'] :: ['.', '.'] :: childNames fs (comps sep p) := by
                have := hrd
                simp only [Option.some.injEq] at this
                exact this.symm
              rw [hnames] at hnmem
              rcases List.mem_cons.mp hnmem with h1 | hrest
              · exact absurd (Or.inl h1) hsent
              · rcases List.mem_cons.mp hrest with h2 | h3
                · exact absurd (Or.inr h2) hsent
                · exact h3
        have hngood : goodComp name = true :=
          childNames_good fs (comps sep p) name hwf hncn
        rcases List.mem_cons.mp hqin with hq1 | hq2
        · exact ⟨p, name, hq1, hngood⟩
        · by_cases hdir : isDirectory sep fs (p ++ sep :: name) = true
          · rw [if_pos ⟨rfl, hdir⟩] at hq2
            exact ih fs (p ++ sep :: name) hwf q hq2
          · rw [if_neg (fun hc => hdir hc.2)] at hq2
            exact absurd hq2 (by simp)

/-- C6: over a well-formed filesystem, `Directory::list(true)` is the
flattened depth-first pre-order traversal: it lists, for each immediate
child in host enumeration order, the child's full path immediately
followed (when the child is a directory) by that child's own full
recursive listing; and no entry of the returned listing is a `"."` or
`".."` sentinel — every entry ends in a real child name. -/
theorem C6_listRecursivePreorder (sep : Char) (fs : FS) (p : List Char)
    (fuel : Nat) (hwf : wfFS fs = true) :
    (dirList sep (fuel + 1) fs p true =
      if isDirectory sep fs p = true then
        (childNames fs (comps sep p)).flatMap fun name =>
          (p ++ sep :: name) ::
            (if isDirectory sep fs (p ++ sep :: name) = true
             then dirList sep fuel fs (p ++ sep :: name) true else [])
      else [])
    ∧ ∀ q ∈ dirList sep (fuel + 1) fs p true,
        ∃ pre n, q = pre ++ sep :: n ∧ goodComp n = true := by
  constructor
  · by_cases hdir : isDirectory sep fs p = true
    · rw [if_pos hdir]
      have hstat : statPath sep fs p = some Node.dir := of_decide_eq_true hdir
      have hrd : readdir sep fs p =
          some (['.'] :: ['.', '.'] :: childNames fs (comps sep p)) := by
        unfold readdir
        rw [hstat]
      rw [dirList_succ, hrd]
      show (['.'] :: ['.', '.'] :: childNames fs (comps sep p)).flatMap _ = _
      rw [List.flatMap_cons, List.flatMap_cons]
      rw [if_pos (Or.inl rfl : (['.'] = ['.'] ∨ ['.'] = ['.', '.'])),
        if_pos (Or.inr rfl : (['.', '.'] = ['.'] ∨ ['.', '.'] = ['.', '.']))]
      rw [List.nil_append, List.nil_append]
      refine flatMap_congr_mem _ _ _ (fun name hname => ?_)
      have hngood : goodComp name = true :=
        childNames_good fs (comps sep p) name hwf hname
      have hne : ¬ (name = ['.'] ∨ name = ['.', '.']) := by
        intro hc
        rcases hc with h | h <;> rw [h] at hngood <;> simp [goodComp] at hngood
      rw [if_neg hne]
      by_cases hcdir : isDirectory sep fs (p ++ sep :: name) = true
      · rw [if_pos ⟨rfl, hcdir⟩, if_pos hcdir]
      · rw [if_neg (fun hc => hcdir hc.2), if_neg hcdir]
    · rw [if_neg hdir]
      have hrd : readdir sep fs p = none := by
        unfold readdir
        cases hstat : statPath sep fs p with
        | none => rfl
        | some nd =>
          cases nd with
          | dir => exact absurd (by simp [isDirectory, hstat]) hdir
          | file c => rfl
          | other => rfl
      rw [dirList_succ, hrd]
  · exact fun q hq => dirList_entry_shape sep (fuel + 1) fs p hwf q hq

/-- Witness for `C6_listRecursivePreorder` on a concrete two-level
well-formed filesystem. -/
theorem C6_witness :
    wfFS [([['d']], Node.dir), ([['d'], ['f']], Node.file [1]),
        ([['d'], ['s']], Node.dir), ([['d'], ['s'], ['g']], Node.file [2])] =
      true
    ∧ dirList '/' 3
        [([['d']], Node.dir), ([['d'], ['f']], Node.file [1]),
          ([['d'], ['s']], Node.dir), ([['d'], ['s'], ['g']], Node.file [2])]
        ['d'] true =
      [['d', '/', 'f'], ['d', '/', 's'], ['d', '/', 's', '/', 'g']]
    ∧ ∀ q ∈ dirList '/' 3
        [([['d']], Node.dir), ([['d'], ['f']], Node.file [1]),
          ([['d'], ['s']], Node.dir), ([['d'], ['s'], ['g']], Node.file [2])]
        ['d'] true,
        ∃ pre n, q = pre ++ '/' :: n ∧ goodComp n = true :=
  ⟨by decide, by decide,
    (C6_listRecursivePreorder '/'
      [([['d']], Node.dir), ([['d'], ['f']], Node.file [1]),
        ([['d'], ['s']], Node.dir), ([['d'], ['s'], ['g']], Node.file [2])]
      ['d'] 2 (by decide)).2⟩

end Crossdev
